import Mathlib

/-!
Verification of the agent-loop examples in `region23/simple-agent` against their
natural-language specification.

The TypeScript sources are shallowly embedded: the external reasoning service
(the chat-completion API) is modelled as an oracle `List Msg → AssistantMsg`,
the shell collaborator (`execSync`) as an oracle `String → Except String String`
together with a log of executed commands, and the filesystem as an association
list from paths to contents.  Each bounded `while` loop becomes a fuel-indexed
recursion whose fuel is the loop's iteration ceiling.
-/

namespace SimpleAgent

/-- The argument payload of one tool call (`JSON.parse(toolCall.function.arguments)`).
The sources only ever read these seven fields; absent fields default like
`undefined`-free accesses in the happy path. -/
structure Args where
  thought : String := ""
  command : String := ""
  city : String := ""
  path : String := ""
  content : String := ""
  reason : String := ""
  completed_steps : List String := []
  discoveries : List String := []
deriving DecidableEq, Repr

/-- One action request of an assistant message (`message.tool_calls[i]`):
identifier, function name, argument payload. -/
structure ToolCall where
  id : String
  fname : String
  args : Args
deriving DecidableEq, Repr

/-- The reasoning service's output: optional free text plus zero or more
requested actions (`response.choices[0].message`). -/
structure AssistantMsg where
  content : Option String := none
  tool_calls : List ToolCall := []
deriving DecidableEq, Repr

/-- One turn of a transcript (`OpenAI.ChatCompletionMessageParam`). -/
inductive Msg where
  | system (content : String)
  | user (content : String)
  | assistant (m : AssistantMsg)
  | tool (tool_call_id : String) (content : String)
deriving DecidableEq, Repr

/-- External world state visible to the action handlers: the filesystem
(path ↦ content) and a trace of the bash commands executed so far (each
`execSync` call appends its command; the trace makes handler side effects
observable). -/
structure World where
  fs : List (String × String)
  bashLog : List String
deriving DecidableEq, Repr

/-- `writeFileSync`: replace the binding for `path`, or add it. -/
def setFs : List (String × String) → String → String → List (String × String)
  | [], p, c => [(p, c)]
  | (q, d) :: rest, p, c => if q = p then (p, c) :: rest else (q, d) :: setFs rest p c

/-- Model of the message of the error `readFileSync` throws for a missing path. -/
def enoentMsg (path : String) : String :=
  "ENOENT: no such file or directory, open " ++ path

/-- The shell collaborator behind `execSync`: a command either succeeds with
its stdout or fails with an error message (`e.stderr || e.message`, including
the timeout case). -/
def Shell : Type := String → Except String String

/-- `toolHandlers` of `src/07-adaptive-agent.ts` (lines 109-134): `think`,
`run_bash`, `read_file`, `write_file`, `request_replan`.  Handlers return a
string and act on the `World`; each `run_bash` invocation records its command
in the bash trace. -/
def toolHandlers07 (shell : Shell) : String → Option (Args → World → String × World)
  | "think" => some (fun _ w => ("OK", w))
  | "run_bash" => some (fun a w =>
      match shell a.command with
      | .ok out => (out.trim, ⟨w.fs, w.bashLog ++ [a.command]⟩)
      | .error e => ("Ошибка: " ++ e, ⟨w.fs, w.bashLog ++ [a.command]⟩))
  | "read_file" => some (fun a w =>
      match w.fs.lookup a.path with
      | some c => (c, w)
      | none => ("Ошибка: " ++ enoentMsg a.path, w))
  | "write_file" => some (fun a w =>
      ("✅ Файл " ++ a.path ++ " записан (" ++ toString a.content.length ++ " байт)",
        ⟨setFs w.fs a.path a.content, w.bashLog⟩))
  | "request_replan" => some (fun _ w => ("REPLAN_REQUESTED", w))
  | _ => none

/-- Mirror of `ExecutionResult.status` in `src/07-adaptive-agent.ts`. -/
inductive ExecStatusTag where
  | completed
  | replan_requested
deriving DecidableEq, Repr

/-- Mirror of `ExecutionResult.replanContext`. -/
structure ReplanContext where
  reason : String
  completedSteps : List String
  discoveries : List String
deriving DecidableEq, Repr

/-- Mirror of `interface ExecutionResult` (the value `executeWithReact`
returns to its caller). -/
structure ExecutionResult where
  status : ExecStatusTag
  replanContext : Option ReplanContext := none
deriving DecidableEq, Repr

/-- The body of the `for (const toolCall of message.tool_calls)` loop of
`executeWithReact` (lines 261-299), processing the requests in order.
Returns the extended transcript, the new world, and `some ctx` when a
`request_replan` call caused the early `return`.

Faithful to the source, for a request that is neither `think` nor
`request_replan` the handler is invoked twice: once on line 290 (its result
only printed) and once more on line 297 when the `tool` message is built;
an unknown name yields the pushed content `"OK"` (line 297's `?? "OK"`),
while line 290's `Tool "…" не найден` text is only printed. -/
def runToolCalls07 (shell : Shell) :
    List ToolCall → List Msg → World → List Msg × World × Option ReplanContext
  | [], msgs, w => (msgs, w, none)
  | tc :: rest, msgs, w =>
    if tc.fname = "think" then
      match toolHandlers07 shell tc.fname with
      | some h =>
        let r := h tc.args w
        runToolCalls07 shell rest (msgs ++ [Msg.tool tc.id r.1]) r.2
      | none => runToolCalls07 shell rest (msgs ++ [Msg.tool tc.id "OK"]) w
    else if tc.fname = "request_replan" then
      (msgs ++ [Msg.tool tc.id "REPLAN_REQUESTED"], w,
        some ⟨tc.args.reason, tc.args.completed_steps, tc.args.discoveries⟩)
    else
      match toolHandlers07 shell tc.fname with
      | some h =>
        let r1 := h tc.args w
        let r2 := h tc.args r1.2
        runToolCalls07 shell rest (msgs ++ [Msg.tool tc.id r2.1]) r2.2
      | none => runToolCalls07 shell rest (msgs ++ [Msg.tool tc.id "OK"]) w

/-- What `executeWithReact` produces: the (internal) final transcript, the
final world, the `ExecutionResult` handed to the caller, and the number of
loop iterations performed (= decision requests issued). -/
structure ExecReturn where
  messages : List Msg
  world : World
  result : ExecutionResult
  iterations : Nat
deriving DecidableEq, Repr

/-- `executeWithReact` of `src/07-adaptive-agent.ts` (lines 241-303):
`while (iteration < 20)` — the fuel argument is the number of iterations
still allowed.  A response with no tool calls returns status `completed`;
a `request_replan` request returns status `replan_requested` right after its
`tool` message is pushed; falling out of the `while` loop also returns
status `completed` (line 302). -/
def executeWithReact (shell : Shell) (service : List Msg → AssistantMsg) :
    Nat → List Msg → World → Nat → ExecReturn
  | 0, msgs, w, iter => ⟨msgs, w, ⟨.completed, none⟩, iter⟩
  | fuel + 1, msgs, w, iter =>
    let m := service msgs
    let msgs1 := msgs ++ [Msg.assistant m]
    if m.tool_calls.isEmpty then ⟨msgs1, w, ⟨.completed, none⟩, iter + 1⟩
    else
      match runToolCalls07 shell m.tool_calls msgs1 w with
      | (msgs2, w2, some ctx) => ⟨msgs2, w2, ⟨.replan_requested, some ctx⟩, iter + 1⟩
      | (msgs2, w2, none) => executeWithReact shell service fuel msgs2 w2 (iter + 1)

/-- Entry into `executeWithReact` as called by `adaptiveAgent`: the system
prompt (which embeds the plan), the task as user message, iteration budget 20. -/
def executeWithReactRun (shell : Shell) (service : List Msg → AssistantMsg)
    (sys task : String) (w : World) : ExecReturn :=
  executeWithReact shell service 20 [Msg.system sys, Msg.user task] w 0

/-- `toolHandlers` of `src/04-real-tools.ts` (lines 51-69): `run_bash`
(timeout 5000, error text `Ошибка: ${e.message}`) and `read_file`. -/
def toolHandlers04 (shell : Shell) : String → Option (Args → World → String × World)
  | "run_bash" => some (fun a w =>
      match shell a.command with
      | .ok out => (out.trim, ⟨w.fs, w.bashLog ++ [a.command]⟩)
      | .error e => ("Ошибка: " ++ e, ⟨w.fs, w.bashLog ++ [a.command]⟩))
  | "read_file" => some (fun a w =>
      match w.fs.lookup a.path with
      | some c => (c, w)
      | none => ("Ошибка: " ++ enoentMsg a.path, w))
  | _ => none

/-- `toolHandlers` of `src/03-agent-loop.ts` (second half of
`src/08-interactive-agent.ts`): `get_weather` over a fixed two-city mapping and
`get_time`, whose wall-clock reading is the external oracle `clock`. -/
def toolHandlers03 (clock : String) : String → Option (Args → World → String × World)
  | "get_weather" => some (fun a w =>
      (((([("Москва", "−5°C, снег"), ("Анапа", "+8°C, облачно")] :
          List (String × String)).lookup a.city).getD ("Нет данных для " ++ a.city)), w))
  | "get_time" => some (fun a w => ("Сейчас в " ++ a.city ++ ": " ++ clock, w))
  | _ => none

/-- How the exit of a plain agent loop (03/04) is observable: `final content`
is the no-tool-calls return (03 returns `message.content`, 04 logs it), `limit`
is falling out of the bounded `while` (03 logs "Достигнут лимит итераций!"). -/
inductive LoopExit where
  | final (content : Option String)
  | limit
deriving DecidableEq, Repr

/-- Result of a plain agent loop run: final transcript (the local `messages`
array), final world, exit kind, and number of iterations (decision requests). -/
structure LoopRet where
  messages : List Msg
  world : World
  exit : LoopExit
  iterations : Nat
deriving DecidableEq, Repr

/-- Handler resolution of `src/04-real-tools.ts` lines 108-109
(`toolHandlers[name]?.(args)` with the `Tool "…" не найден` fallback):
resolve the handler, invoke it once, fall back to the error text for an
unknown name. -/
def resolve04 (shell : Shell) (tc : ToolCall) (w : World) : String × World :=
  match toolHandlers04 shell tc.fname with
  | some h => h tc.args w
  | none => ("Tool \"" ++ tc.fname ++ "\" не найден", w)

/-- Handler resolution of `src/03-agent-loop.ts` lines 531-534: unknown names
fall back to `Ошибка: tool "${name}" не найден`. -/
def resolve03 (clock : String) (tc : ToolCall) (w : World) : String × World :=
  match toolHandlers03 clock tc.fname with
  | some h => h tc.args w
  | none => ("Ошибка: tool \"" ++ tc.fname ++ "\" не найден", w)

/-- The `for (const toolCall of message.tool_calls)` body shared by the 03/04
loops: invoke the resolved handler once per request, in order, and push one
`tool` message per request with the request's id. -/
def runCallsSimple (resolve : ToolCall → World → String × World) :
    List ToolCall → List Msg → World → List Msg × World
  | [], msgs, w => (msgs, w)
  | tc :: rest, msgs, w =>
    let r := resolve tc w
    runCallsSimple resolve rest (msgs ++ [Msg.tool tc.id r.1]) r.2

/-- The bounded `while` loop shared verbatim by `agentLoop` of
`src/04-real-tools.ts` (lines 84-119) and of `src/03-agent-loop.ts`
(lines 502-546); the two differ only in the handler table and the
unknown-name fallback, captured by `resolve`. -/
def agentLoopCore (resolve : ToolCall → World → String × World)
    (service : List Msg → AssistantMsg) : Nat → List Msg → World → Nat → LoopRet
  | 0, msgs, w, iter => ⟨msgs, w, .limit, iter⟩
  | fuel + 1, msgs, w, iter =>
    let m := service msgs
    let msgs1 := msgs ++ [Msg.assistant m]
    if m.tool_calls.isEmpty then ⟨msgs1, w, .final m.content, iter + 1⟩
    else
      let r := runCallsSimple resolve m.tool_calls msgs1 w
      agentLoopCore resolve service fuel r.1 r.2 (iter + 1)

/-- The system prompt of `agentLoop` in `src/04-real-tools.ts`. -/
def sys04 : String :=
  "Ты полезный ассистент с доступом к файловой системе.\nМожешь выполнять bash-команды и читать файлы.\nОтвечай на русском."

/-- `agentLoop` of `src/04-real-tools.ts`: ceiling 10, starting from the
system + user transcript. -/
def agentLoop04 (shell : Shell) (service : List Msg → AssistantMsg)
    (userMessage : String) (w : World) : LoopRet :=
  agentLoopCore (resolve04 shell) service 10 [Msg.system sys04, Msg.user userMessage] w 0

/-- `agentLoop` of `src/03-agent-loop.ts` (inside 08's file): ceiling
`MAX_ITERATIONS = 10`. -/
def agentLoop03 (clock : String) (service : List Msg → AssistantMsg)
    (userMessage : String) (w : World) : LoopRet :=
  agentLoopCore (resolve03 clock) service 10
    [Msg.system "Ты полезный ассистент. Используй tools когда нужно.", Msg.user userMessage] w 0

/-- Exit kind of `interactiveAgent` in `src/08-interactive-agent.ts`:
`finished` is the "👋 Завершено" return (empty follow-up after a plain-text
turn); `limit` is falling out of `while (iteration < 30)`. -/
inductive InteractiveExit where
  | finished
  | limit
deriving DecidableEq, Repr

/-- Result of an `interactiveAgent` run. -/
structure InteractiveRet where
  messages : List Msg
  world : World
  exit : InteractiveExit
  iterations : Nat
deriving DecidableEq, Repr

/-- Tool-call processing of `interactiveAgent` (lines 359-391): one handler
invocation per request (`const output = handler(args)`), fallback
`Tool "${name}" не найден` for unknown names. -/
def runCalls08 (handlers : String → Option (Args → World → String × World)) :
    List ToolCall → List Msg → World → List Msg × World
  | [], msgs, w => (msgs, w)
  | tc :: rest, msgs, w =>
    match handlers tc.fname with
    | some h =>
      let r := h tc.args w
      runCalls08 handlers rest (msgs ++ [Msg.tool tc.id r.1]) r.2
    | none =>
      runCalls08 handlers rest
        (msgs ++ [Msg.tool tc.id ("Tool \"" ++ tc.fname ++ "\" не найден")]) w

/-- The `while (iteration < 30)` loop of `interactiveAgent`
(`src/08-interactive-agent.ts` lines 330-392).  On a turn with no tool calls
the user is asked for a follow-up (`userFollow`, an oracle over the current
transcript): an empty answer returns (`finished`); a non-empty answer is pushed
as a new `user` turn and the loop `continue`s, the iteration already counted.
The handler table (whose entries block on interactive prompts) is a parameter;
its internals are irrelevant to the loop. -/
def interactiveAgentLoop (handlers : String → Option (Args → World → String × World))
    (service : List Msg → AssistantMsg) (userFollow : List Msg → String) :
    Nat → List Msg → World → Nat → InteractiveRet
  | 0, msgs, w, iter => ⟨msgs, w, .limit, iter⟩
  | fuel + 1, msgs, w, iter =>
    let m := service msgs
    let msgs1 := msgs ++ [Msg.assistant m]
    if m.tool_calls.isEmpty then
      let follow := userFollow msgs1
      if follow = "" then ⟨msgs1, w, .finished, iter + 1⟩
      else interactiveAgentLoop handlers service userFollow fuel
        (msgs1 ++ [Msg.user follow]) w (iter + 1)
    else
      let r := runCalls08 handlers m.tool_calls msgs1 w
      interactiveAgentLoop handlers service userFollow fuel r.1 r.2 (iter + 1)

/-- `interactiveAgent(task, systemPrompt?)`: ceiling 30, transcript starts
with the (resolved) system prompt and the task. -/
def interactiveAgent (handlers : String → Option (Args → World → String × World))
    (service : List Msg → AssistantMsg) (userFollow : List Msg → String)
    (sysPrompt task : String) (w : World) : InteractiveRet :=
  interactiveAgentLoop handlers service userFollow 30
    [Msg.system sysPrompt, Msg.user task] w 0

/-- How an `adaptiveAgent` run ends: `done` is the "🎉 Агент завершил задачу."
return, `aborted` the "⚠️ Достигнут лимит репланов" return, `fellThrough` the
(unreachable) exit by the `while` condition itself. -/
inductive AgentOutcome where
  | done
  | aborted
  | fellThrough
deriving DecidableEq, Repr

/-- `MAX_REPLANS` of `src/07-adaptive-agent.ts` line 318. -/
def MAX_REPLANS : Nat := 3

/-- The `while (replanCount <= MAX_REPLANS)` loop of `adaptiveAgent`
(`src/07-adaptive-agent.ts` lines 321-345), with the execution phase
abstracted as an oracle `exec` giving the `ExecutionResult` of the attempt
with the given `replanCount`.  The second component counts the calls to
`createPlan(task, {previousPlan, …})`, i.e. the replanning cycles; each
recursive call performs exactly one.  `fuel` only ensures termination: from
the real entry point it never runs out before the loop returns. -/
def adaptiveLoop (exec : Nat → ExecutionResult) (maxReplans : Nat) :
    Nat → Nat → Nat → AgentOutcome × Nat
  | 0, _, replans => (.fellThrough, replans)
  | fuel + 1, rc, replans =>
    if rc ≤ maxReplans then
      match (exec rc).status with
      | .completed => (.done, replans)
      | .replan_requested =>
        if rc + 1 > maxReplans then (.aborted, replans)
        else adaptiveLoop exec maxReplans fuel (rc + 1) (replans + 1)
    else (.fellThrough, replans)

/-- `adaptiveAgent` after the initial `createPlan`: replan counter starts at
0, no replanning cycle performed yet. -/
def adaptiveAgentRun (exec : Nat → ExecutionResult) (maxReplans : Nat) :
    AgentOutcome × Nat :=
  adaptiveLoop exec maxReplans (maxReplans + 1) 0 0

/-- `interface Skill` of `src/05-skills.ts`: the handler record is an
association list (its keys are distinct in every skill the file defines). -/
structure Skill where
  name : String
  description : String
  handlers : List (String × (Args → String))

/-- `Object.assign({}, ...skills.map(s => s.handlers))` in `createAgent`
(`src/05-skills.ts` line 148), as a lookup function: a later skill's binding
for a name overrides an earlier one's. -/
def createAgentHandlers (skills : List Skill) : String → Option (Args → String) :=
  skills.foldl
    (fun acc s => fun n =>
      match s.handlers.lookup n with
      | some h => some h
      | none => acc n)
    (fun _ => none)

/-- Single left-to-right pass of `text.replace(/```json\n?/g, "")`: at each
position the (greedy) match of three backticks + `json` + optional newline is
removed, without rescanning earlier output. -/
def stripPassJson : List Char → List Char
  | '`' :: '`' :: '`' :: 'j' :: 's' :: 'o' :: 'n' :: '\n' :: rest => stripPassJson rest
  | '`' :: '`' :: '`' :: 'j' :: 's' :: 'o' :: 'n' :: rest => stripPassJson rest
  | c :: cs => c :: stripPassJson cs
  | [] => []

/-- Single left-to-right pass of `.replace(/```\n?/g, "")`. -/
def stripPassTicks : List Char → List Char
  | '`' :: '`' :: '`' :: '\n' :: rest => stripPassTicks rest
  | '`' :: '`' :: '`' :: rest => stripPassTicks rest
  | c :: cs => c :: stripPassTicks cs
  | [] => []

/-- Model of JavaScript `String.prototype.trim`: drop whitespace from both
ends. -/
def trimChars (cs : List Char) : List Char :=
  ((cs.dropWhile Char.isWhitespace).reverse.dropWhile Char.isWhitespace).reverse

/-- The fence-stripping normalization shared by `createPlan`
(`src/07-adaptive-agent.ts` line 183) and `planThenExecute`
(`src/06-planning.ts` line 165):
`text.replace(/```json\n?/g, "").replace(/```\n?/g, "").trim()`. -/
def stripFences (s : String) : String :=
  String.mk (trimChars (stripPassTicks (stripPassJson s.toList)))

/-- JSON values, the result type of `JSON.parse` (integer numerals suffice for
everything considered here). -/
inductive Json where
  | jnull
  | jbool (b : Bool)
  | jnum (n : Int)
  | jstr (s : String)
  | jarr (elems : List Json)
  | jobj (fields : List (String × Json))

/-- JSON whitespace removal. -/
def dropJsonWs (cs : List Char) : List Char :=
  cs.dropWhile (fun c => c = ' ' || c = '\n' || c = '\t' || c = '\r')

/-- Consume a literal keyword (`null` / `true` / `false`) when the input
starts with it. -/
def takeKw (kw : String) (cs : List Char) : Option (List Char) :=
  if kw.toList.isPrefixOf cs then some (cs.drop kw.length) else none

/-- Unescape one string-literal escape character (the escapes appearing in
the texts considered here). -/
def escChar (e : Char) : Option Char :=
  if e = '"' || e = '\\' || e = '/' then some e
  else if e = 'n' then some '\n'
  else if e = 't' then some '\t'
  else if e = 'r' then some '\r'
  else none

/-- Parse the body of a string literal after the opening quote, returning the
string and the remainder after the closing quote. -/
def jsonStrRest : List Char → Option (String × List Char)
  | [] => none
  | '"' :: rest => some ("", rest)
  | '\\' :: e :: rest =>
    match escChar e with
    | some c => (jsonStrRest rest).map (fun p => (String.mk (c :: p.1.toList), p.2))
    | none => none
  | c :: rest => (jsonStrRest rest).map (fun p => (String.mk (c :: p.1.toList), p.2))

/-- Value of a digit run. -/
def digitsNat (ds : List Char) : Nat :=
  ds.foldl (fun n c => n * 10 + (c.toNat - 48)) 0

/-- Parse a nonempty run of digits (the plan JSON uses integer numerals). -/
def jsonDigits (cs : List Char) : Option (Nat × List Char) :=
  let ds := cs.takeWhile Char.isDigit
  if ds.isEmpty then none else some (digitsNat ds, cs.drop ds.length)

mutual

/-- Recursive-descent JSON value parser (fuel-indexed). -/
def jsonVal : Nat → List Char → Option (Json × List Char)
  | 0, _ => none
  | fuel + 1, input =>
    let cs := dropJsonWs input
    ((takeKw "null" cs).map (fun r => (Json.jnull, r))).orElse fun _ =>
    ((takeKw "true" cs).map (fun r => (Json.jbool true, r))).orElse fun _ =>
    ((takeKw "false" cs).map (fun r => (Json.jbool false, r))).orElse fun _ =>
    match cs with
    | '"' :: rest => (jsonStrRest rest).map (fun p => (.jstr p.1, p.2))
    | '-' :: rest => (jsonDigits rest).map (fun p => (.jnum (-(p.1 : Int)), p.2))
    | '[' :: rest =>
      match dropJsonWs rest with
      | ']' :: rest2 => some (.jarr [], rest2)
      | _ => (jsonArrItems fuel rest).map (fun p => (.jarr p.1, p.2))
    | '\x7b' :: rest =>
      match dropJsonWs rest with
      | '\x7d' :: rest2 => some (.jobj [], rest2)
      | _ => (jsonObjItems fuel rest).map (fun p => (.jobj p.1, p.2))
    | c :: rest =>
      if c.isDigit then (jsonDigits (c :: rest)).map (fun p => (.jnum (p.1 : Int), p.2))
      else none
    | [] => none

/-- Comma-separated array items up to the closing bracket. -/
def jsonArrItems : Nat → List Char → Option (List Json × List Char)
  | 0, _ => none
  | fuel + 1, cs =>
    (jsonVal fuel cs).bind fun vr =>
      match dropJsonWs vr.2 with
      | ',' :: rest2 => (jsonArrItems fuel rest2).map (fun p => (vr.1 :: p.1, p.2))
      | ']' :: rest2 => some ([vr.1], rest2)
      | _ => none

/-- Comma-separated `"key": value` pairs up to the closing brace. -/
def jsonObjItems : Nat → List Char → Option (List (String × Json) × List Char)
  | 0, _ => none
  | fuel + 1, cs =>
    match dropJsonWs cs with
    | '"' :: rest =>
      (jsonStrRest rest).bind fun kr =>
        match dropJsonWs kr.2 with
        | ':' :: rest2 =>
          (jsonVal fuel rest2).bind fun vr =>
            match dropJsonWs vr.2 with
            | ',' :: rest4 => (jsonObjItems fuel rest4).map (fun p => ((kr.1, vr.1) :: p.1, p.2))
            | '\x7d' :: rest4 => some ([(kr.1, vr.1)], rest4)
            | _ => none
        | _ => none
    | _ => none

end

/-- Model of `JSON.parse`: a complete JSON value with nothing but whitespace
after it; anything else throws (here: `none`). -/
def jsonParse (s : String) : Option Json :=
  match jsonVal (2 * s.length + 4) s.toList with
  | some (v, rest) => if (dropJsonWs rest).isEmpty then some v else none
  | none => none

/-- Stated from the spec's words, for comparison with what the code accepts:
one step of the Plan shape — an object with numeric `id`, string `action`
(action-intent), string `tool` (action name) and string `reason` (rationale). -/
def isStepShape : Json → Bool
  | .jobj fields =>
    (match fields.lookup "id" with | some (.jnum _) => true | _ => false) &&
    (match fields.lookup "action" with | some (.jstr _) => true | _ => false) &&
    (match fields.lookup "tool" with | some (.jstr _) => true | _ => false) &&
    (match fields.lookup "reason" with | some (.jstr _) => true | _ => false)
  | _ => false

/-- Stated from the spec's words: the Plan shape — `goal` a string, `steps` a
non-empty array of step objects. -/
def specPlanShape : Json → Bool
  | .jobj fields =>
    (match fields.lookup "goal" with | some (.jstr _) => true | _ => false) &&
    (match fields.lookup "steps" with
     | some (.jarr steps) => !steps.isEmpty && steps.all isStepShape
     | _ => false)
  | _ => false

/-- Outcome of `createPlan`'s parsing step (`src/07-adaptive-agent.ts`
lines 182-184): `JSON.parse` of the fence-stripped text is returned as the
plan with no validation of its shape; a parse failure propagates as an
exception (here `parseError`). -/
inductive PlanParse where
  | ok (plan : Json)
  | parseError

/-- `createPlan`'s handling of the service's plan text
(`src/07-adaptive-agent.ts` lines 182-184). -/
def createPlanParse (text : String) : PlanParse :=
  match jsonParse (stripFences text) with
  | some j => .ok j
  | none => .parseError

/-- JavaScript property access `plan.steps` when it is used as an array:
`some` when the parsed value is an object whose `steps` field is an array;
otherwise `plan.steps.length` / `plan.steps.forEach` (or any property access
on `null`) throws a `TypeError`. -/
def planStepsArray : Json → Option (List Json)
  | .jobj fields =>
    match fields.lookup "steps" with
    | some (.jarr xs) => some xs
    | _ => none
  | _ => none

/-- How far `planThenExecute` (`src/06-planning.ts` lines 159-238) gets on a
given plan text from the service: `parseFailed` is the caught `JSON.parse`
error ("❌ Не удалось распарсить план", `return` before execution);
`crashed` is an uncaught `TypeError` while printing a parsed plan whose
`steps` is not an array; `executionStarted` means phase 2's iteration loop is
entered with the parsed plan. -/
inductive PlanPhase where
  | parseFailed
  | crashed
  | executionStarted (plan : Json)

/-- The plan-parsing phase of `planThenExecute` (`src/06-planning.ts`). -/
def planThenExecutePhase (planText : String) : PlanPhase :=
  match jsonParse (stripFences planText) with
  | none => .parseFailed
  | some plan =>
    match planStepsArray plan with
    | none => .crashed
    | some _ => .executionStarted plan

/-- The tags of the `action-result` (`tool`) turns of a transcript, in order. -/
def toolTags (ms : List Msg) : List String :=
  ms.filterMap (fun m => match m with | .tool id _ => some id | _ => none)

/-- Whether a turn is an `action-result` turn. -/
def isToolMsg : Msg → Bool
  | .tool _ _ => true
  | _ => false

/-- Checker for the transcript invariant of spec §3, processing turns left to
right.  The state is the list of still-unanswered request ids of the current
`assistant` turn, in order: a `tool` turn must answer exactly the next pending
request; any other turn may only appear once nothing is pending; an
`assistant` turn opens its own requests.  The run returns the pending ids at
the end (`none` on violation), so a transcript is well-formed precisely when
`chkRun [] ms = some []`: every action-result tag matches exactly one request
of the immediately preceding assistant turn, and every request is answered
before the next decision request. -/
def chkRun : List String → List Msg → Option (List String)
  | p, [] => some p
  | p, .tool id _ :: rest =>
    match p with
    | q :: qs => if id = q then chkRun qs rest else none
    | [] => none
  | p, .assistant m :: rest =>
    if p.isEmpty then chkRun (m.tool_calls.map ToolCall.id) rest else none
  | p, .system _ :: rest => if p.isEmpty then chkRun [] rest else none
  | p, .user _ :: rest => if p.isEmpty then chkRun [] rest else none

/-- The id-freshness guarantee of the external reasoning service (ids are
"Created by the reasoning service's response", spec §3): within one response
the request ids are distinct, and none collides with a tag already present in
the transcript the response answers. -/
def freshIds (service : List Msg → AssistantMsg) : Prop :=
  ∀ ms, ((service ms).tool_calls.map ToolCall.id).Nodup ∧
    ∀ i ∈ (service ms).tool_calls.map ToolCall.id, i ∉ toolTags ms

/-- An empty world: no files, no commands executed yet. -/
def w0 : World := ⟨[], []⟩

/-- A shell oracle on which every command succeeds. -/
def shellOk : Shell := fun c => .ok ("ran " ++ c)

/-- A shell oracle on which every command fails (nonzero exit or timeout). -/
def shellFail : Shell := fun _ => .error "команда завершилась с ошибкой"

/-- An empty handler table. -/
def handlersNone : String → Option (Args → World → String × World) := fun _ => none

/-- A reasoning-service oracle whose first decision requests one
`run_bash("echo hi")` call and whose second decision is a final answer. -/
def svcBash : List Msg → AssistantMsg := fun ms =>
  if ms.length == 2 then ⟨some "", [⟨"call_1", "run_bash", { command := "echo hi" }⟩]⟩
  else ⟨some "done", []⟩

/-- A reasoning service that always requests a single `think` action and
never finalizes. -/
def svcThink : List Msg → AssistantMsg := fun _ => ⟨none, [⟨"t1", "think", {}⟩]⟩

/-- A reasoning service that immediately produces a final answer. -/
def svcFinal : List Msg → AssistantMsg := fun _ => ⟨some "готово", []⟩

/-- A reasoning service whose first decision requests an action under a name
registered nowhere, then finalizes. -/
def svcUnknown : List Msg → AssistantMsg := fun ms =>
  if ms.length == 2 then ⟨none, [⟨"u1", "frobnicate", {}⟩]⟩
  else ⟨some "done", []⟩

/-- A reasoning service whose first decision requests `read_file` on a path
that does not exist, then finalizes. -/
def svcRead : List Msg → AssistantMsg := fun ms =>
  if ms.length == 2 then ⟨none, [⟨"c1", "read_file", { path := "/nope.txt" }⟩]⟩
  else ⟨some "ok", []⟩

/-- A reasoning service that requests a `think`, then a `request_replan`
carrying a reason and discoveries, then (unreachably) a `run_bash`. -/
def svcReplanMid : List Msg → AssistantMsg := fun _ =>
  ⟨none,
    [⟨"r0", "think", { thought := "хм" }⟩,
     ⟨"r1", "request_replan",
       { reason := "новая информация", completed_steps := ["шаг 1"],
         discoveries := ["файлов больше"] }⟩,
     ⟨"r2", "run_bash", { command := "ls" }⟩]⟩

/-- A reasoning service that issues two distinctly-tagged weather/time
requests on its first decision (when the transcript holds no action results
yet) and finalizes afterwards; its ids are fresh for every transcript. -/
def svcWeather : List Msg → AssistantMsg := fun ms =>
  if (toolTags ms).isEmpty then
    ⟨none, [⟨"a", "get_weather", { city := "Анапа" }⟩, ⟨"b", "get_time", { city := "Москва" }⟩]⟩
  else ⟨some "готово", []⟩

/-- A reasoning service that always answers in plain text, never requesting
actions. -/
def svcText : List Msg → AssistantMsg := fun _ => ⟨some "вот ответ", []⟩

/-- A reasoning service that always requests a single `get_weather` action
and never finalizes. -/
def svcWeatherAlways : List Msg → AssistantMsg :=
  fun _ => ⟨none, [⟨"a", "get_weather", { city := "Анапа" }⟩]⟩

/-- A user who always types a non-empty follow-up at the prompt. -/
def followYes : List Msg → String := fun _ => "продолжай"

/-- A user who presses Enter (empty follow-up) at the prompt. -/
def followNone : List Msg → String := fun _ => ""

/-- An execution phase that ends in a revision request on every attempt. -/
def execAlwaysReplan : Nat → ExecutionResult :=
  fun _ => ⟨.replan_requested, some ⟨"план устарел", [], []⟩⟩

/-- First toy handler for a duplicated action name. -/
def dupFirst : Args → String := fun _ => "first"

/-- Second toy handler for the same action name. -/
def dupSecond : Args → String := fun _ => "second"

/-- A skill registering the action name `dup` with `dupFirst`. -/
def skillA : Skill := ⟨"a", "первый навык", [("dup", dupFirst)]⟩

/-- A skill registering the same action name `dup` with `dupSecond`. -/
def skillB : Skill := ⟨"b", "второй навык", [("dup", dupSecond)]⟩

/-- A syntactically valid JSON object that is not of the Plan shape: its
`steps` sequence is empty. -/
def planJsonStr : String := "\x7b\"goal\": \"g\", \"steps\": []\x7d"

/-- The parsed value of `planJsonStr`. -/
def planJsonVal : Json := .jobj [("goal", .jstr "g"), ("steps", .jarr [])]

/-!  Theorems. -/

/-- C1: the claim that each request's handler is invoked exactly once fails
on `executeWithReact` (`src/07-adaptive-agent.ts`).  With a service whose
first assistant turn requests a single `run_bash("echo hi")`, the command is
executed twice — once on line 290 (the console preview) and once on line 297
(building the `tool` message) — so the bash trace holds the command twice,
even though exactly one action-result turn is appended.  `agentLoop` of
`src/04-real-tools.ts` on the same input executes it once, as the spec
demands. -/
theorem C1_run_bash_handler_invoked_twice :
    (executeWithReactRun shellOk svcBash "sys" "task" w0).world.bashLog
        = ["echo hi", "echo hi"] ∧
    ((executeWithReactRun shellOk svcBash "sys" "task" w0).messages.countP
        (fun m => isToolMsg m)) = 1 ∧
    (agentLoop04 shellOk svcBash "task" w0).world.bashLog = ["echo hi"] :=
  ⟨rfl, rfl, rfl⟩

/-- C4, counterexample: `createAgent` (`src/05-skills.ts`) does not reject a
second registration under an already-used name.  With two skills both binding
the name `dup`, the merged handler table resolves `dup` to the second skill's
handler — the second registration silently replaced the first, and the merge
(`Object.assign`) has no failure outcome at all. -/
theorem C4_second_registration_silently_replaces :
    (createAgentHandlers [skillA, skillB] "dup").map (fun h => h {}) = some "second" ∧
    (createAgentHandlers [skillA, skillB] "dup").map (fun h => h {}) ≠ some "first" :=
  ⟨rfl, by decide⟩

/-- C4, amended: registering two actions under the same name never fails;
`createAgent` merges the skills' handler records with `Object.assign`
semantics, so whatever handler the later skill binds to a name is the one the
merged table resolves, silently replacing any earlier binding. -/
theorem C4_later_skill_overrides (s1 s2 : Skill) (n : String) (h : Args → String)
    (hl : s2.handlers.lookup n = some h) :
    createAgentHandlers [s1, s2] n = some h := by
  simp [createAgentHandlers, hl]

/-- Witness for `C4_later_skill_overrides` at the two toy skills. -/
theorem C4_later_skill_overrides_witness :
    skillB.handlers.lookup "dup" = some dupSecond ∧
    createAgentHandlers [skillA, skillB] "dup" = some dupSecond :=
  ⟨rfl, C4_later_skill_overrides skillA skillB "dup" dupSecond rfl⟩

/-- C5, counterexample: a fence-wrapped, syntactically valid JSON object whose
`steps` sequence is empty does not parse into the Plan shape, yet neither
`createPlan` (`src/07-adaptive-agent.ts`) nor `planThenExecute`
(`src/06-planning.ts`) fails: the value is returned as the plan and the
execution loop is started with it. -/
theorem C5_non_plan_shape_accepted :
    planThenExecutePhase ("```json\n" ++ planJsonStr ++ "\n```")
        = .executionStarted planJsonVal ∧
    specPlanShape planJsonVal = false ∧
    createPlanParse ("```json\n" ++ planJsonStr ++ "\n```") = .ok planJsonVal :=
  ⟨rfl, rfl, rfl⟩

/-- Scanning a run of backtick-free characters removes nothing
(`/```json\n?/g` pass). -/
theorem stripPassJson_cons_ne (c : Char) (cs : List Char) (h : c ≠ '`') :
    stripPassJson (c :: cs) = c :: stripPassJson cs := by
  conv_lhs => rw [stripPassJson.eq_def]
  split
  · rename_i heq
    injection heq with h1 _
    exact absurd h1 h
  · rename_i heq
    injection heq with h1 _
    exact absurd h1 h
  · rename_i c2 cs2 heq
    injection heq with h1 h2
    rw [h1, h2]
  · rename_i heq
    exact absurd heq (by simp)

/-- The `/```json\n?/g` pass copies a backtick-free block verbatim. -/
theorem stripPassJson_append_clean (cs t : List Char) (h : ∀ c ∈ cs, c ≠ '`') :
    stripPassJson (cs ++ t) = cs ++ stripPassJson t := by
  induction cs with
  | nil => simp
  | cons c cs ih =>
    have hc : c ≠ '`' := h c (List.mem_cons_self c cs)
    rw [List.cons_append, stripPassJson_cons_ne c (cs ++ t) hc,
      ih (fun x hx => h x (List.mem_cons_of_mem c hx))]
    rfl

/-- Scanning a run of backtick-free characters removes nothing
(`/```\n?/g` pass). -/
theorem stripPassTicks_cons_ne (c : Char) (cs : List Char) (h : c ≠ '`') :
    stripPassTicks (c :: cs) = c :: stripPassTicks cs := by
  conv_lhs => rw [stripPassTicks.eq_def]
  split
  · rename_i heq
    injection heq with h1 _
    exact absurd h1 h
  · rename_i heq
    injection heq with h1 _
    exact absurd h1 h
  · rename_i c2 cs2 heq
    injection heq with h1 h2
    rw [h1, h2]
  · rename_i heq
    exact absurd heq (by simp)

/-- The `/```\n?/g` pass copies a backtick-free block verbatim. -/
theorem stripPassTicks_append_clean (cs t : List Char) (h : ∀ c ∈ cs, c ≠ '`') :
    stripPassTicks (cs ++ t) = cs ++ stripPassTicks t := by
  induction cs with
  | nil => simp
  | cons c cs ih =>
    have hc : c ≠ '`' := h c (List.mem_cons_self c cs)
    rw [List.cons_append, stripPassTicks_cons_ne c (cs ++ t) hc,
      ih (fun x hx => h x (List.mem_cons_of_mem c hx))]
    rfl

/-- Trimming ignores a trailing whitespace character. -/
theorem trimChars_append_ws (cs : List Char) (c : Char) (hc : c.isWhitespace = true) :
    trimChars (cs ++ [c]) = trimChars cs := by
  unfold trimChars
  rw [List.dropWhile_append]
  by_cases hres : List.dropWhile Char.isWhitespace cs = []
  · rw [if_pos (by simp [hres])]
    simp [List.dropWhile_cons, hc, hres]
  · rw [if_neg (by simp [List.isEmpty_iff, hres])]
    rw [List.reverse_append]
    simp [List.dropWhile_cons, hc]

/-- Fence stripping recovers exactly the (trimmed) inner text of a
code-fenced block containing no stray backticks. -/
theorem stripFences_of_fenced (s : String) (h : ∀ c ∈ s.toList, c ≠ '`') :
    stripFences ("```json\n" ++ s ++ "\n```") = String.mk (trimChars s.toList) := by
  unfold stripFences
  have hl : ("```json\n" ++ s ++ "\n```").toList
      = ('`' :: '`' :: '`' :: 'j' :: 's' :: 'o' :: 'n' :: '\n' ::
          (s.toList ++ ['\n', '`', '`', '`'])) := by
    simp [String.toList]
  rw [hl]
  have h1 : stripPassJson ('`' :: '`' :: '`' :: 'j' :: 's' :: 'o' :: 'n' :: '\n' ::
      (s.toList ++ ['\n', '`', '`', '`'])) = stripPassJson (s.toList ++ ['\n', '`', '`', '`']) := rfl
  rw [h1, stripPassJson_append_clean _ _ h]
  have h2 : stripPassJson ['\n', '`', '`', '`'] = ['\n', '`', '`', '`'] := rfl
  rw [h2, stripPassTicks_append_clean _ _ h]
  have h3 : stripPassTicks ['\n', '`', '`', '`'] = ['\n'] := rfl
  rw [h3, trimChars_append_ws _ _ (by decide)]

/-- C5, amended: `createPlan` strips incidental code-fence wrapping (for a
fenced block without stray backticks the parser sees exactly the trimmed
inner text), and it fails exactly when the stripped text is not valid JSON —
in which case `planThenExecute` returns before its execution phase, so no
Iteration Loop is started.  Any valid JSON, of the Plan shape or not, is
accepted without validation: `createPlan` returns it as the plan and
`planThenExecute` proceeds past parsing (crashing later or starting the
execution loop), never reporting a parse error. -/
theorem C5_fence_stripping_and_json_only_validation :
    (∀ s : String, (∀ c ∈ s.toList, c ≠ '`') →
      stripFences ("```json\n" ++ s ++ "\n```") = String.mk (trimChars s.toList)) ∧
    (∀ t : String, jsonParse (stripFences t) = none →
      createPlanParse t = .parseError ∧ planThenExecutePhase t = .parseFailed) ∧
    (∀ (t : String) (j : Json), jsonParse (stripFences t) = some j →
      createPlanParse t = .ok j ∧ planThenExecutePhase t ≠ .parseFailed) := by
  refine ⟨stripFences_of_fenced, fun t h => ⟨?_, ?_⟩, fun t j h => ⟨?_, ?_⟩⟩
  · simp [createPlanParse, h]
  · simp [planThenExecutePhase, h]
  · simp [createPlanParse, h]
  · cases hsa : planStepsArray j <;> simp [planThenExecutePhase, h, hsa]

/-- Witness for `C5_fence_stripping_and_json_only_validation`: the fenced
empty-steps object, a non-JSON text, and the bare empty-steps object. -/
theorem C5_fence_stripping_witness :
    stripFences ("```json\n" ++ planJsonStr ++ "\n```")
        = String.mk (trimChars planJsonStr.toList) ∧
    (createPlanParse "это не JSON" = .parseError ∧
      planThenExecutePhase "это не JSON" = .parseFailed) ∧
    (createPlanParse planJsonStr = .ok planJsonVal ∧
      planThenExecutePhase planJsonStr ≠ .parseFailed) :=
  ⟨C5_fence_stripping_and_json_only_validation.1 planJsonStr (by decide),
    C5_fence_stripping_and_json_only_validation.2.1 "это не JSON" (by rfl),
    C5_fence_stripping_and_json_only_validation.2.2 planJsonStr planJsonVal (by rfl)⟩

/-- Tags of a transcript starting with an action-result turn. -/
theorem toolTags_cons_tool (i c : String) (ans : List Msg) :
    toolTags (Msg.tool i c :: ans) = i :: toolTags ans := rfl

/-- Step equation of `runToolCalls07`: a `think` request pushes `OK` without
touching the world. -/
theorem runToolCalls07_cons_think (shell : Shell) (tc : ToolCall) (rest : List ToolCall)
    (msgs : List Msg) (w : World) (h : tc.fname = "think") :
    runToolCalls07 shell (tc :: rest) msgs w
      = runToolCalls07 shell rest (msgs ++ [Msg.tool tc.id "OK"]) w := by
  simp only [runToolCalls07]
  rw [if_pos h, h]
  rfl

/-- Step equation of `runToolCalls07`: a `request_replan` request pushes its
action-result and returns at once with the revision context taken from the
request's arguments. -/
theorem runToolCalls07_cons_replan (shell : Shell) (tc : ToolCall) (rest : List ToolCall)
    (msgs : List Msg) (w : World) (h : tc.fname = "request_replan") :
    runToolCalls07 shell (tc :: rest) msgs w
      = (msgs ++ [Msg.tool tc.id "REPLAN_REQUESTED"], w,
          some ⟨tc.args.reason, tc.args.completed_steps, tc.args.discoveries⟩) := by
  simp only [runToolCalls07]
  rw [if_neg (by rw [h]; decide), if_pos h]

/-- Step equation of `runToolCalls07`: any other registered request invokes
its handler twice (lines 290 and 297) and pushes the second result. -/
theorem runToolCalls07_cons_known (shell : Shell) (tc : ToolCall) (rest : List ToolCall)
    (msgs : List Msg) (w : World) (hd : Args → World → String × World)
    (h1 : ¬tc.fname = "think") (h2 : ¬tc.fname = "request_replan")
    (hh : toolHandlers07 shell tc.fname = some hd) :
    runToolCalls07 shell (tc :: rest) msgs w
      = runToolCalls07 shell rest (msgs ++ [Msg.tool tc.id (hd tc.args (hd tc.args w).2).1])
          (hd tc.args (hd tc.args w).2).2 := by
  simp only [runToolCalls07]
  rw [if_neg h1, if_neg h2, hh]

/-- Step equation of `runToolCalls07`: an unregistered request pushes `OK`
(line 297's fallback) and the loop goes on. -/
theorem runToolCalls07_cons_unknown (shell : Shell) (tc : ToolCall) (rest : List ToolCall)
    (msgs : List Msg) (w : World)
    (h1 : ¬tc.fname = "think") (h2 : ¬tc.fname = "request_replan")
    (hh : toolHandlers07 shell tc.fname = none) :
    runToolCalls07 shell (tc :: rest) msgs w
      = runToolCalls07 shell rest (msgs ++ [Msg.tool tc.id "OK"]) w := by
  simp only [runToolCalls07]
  rw [if_neg h1, if_neg h2, hh]

/-- A turn of requests without `request_replan` appends exactly one
action-result per request (tags in request order) and yields no revision
context. -/
theorem runToolCalls07_no_replan (shell : Shell) :
    ∀ (tcs : List ToolCall) (msgs : List Msg) (w : World),
      (∀ tc ∈ tcs, tc.fname ≠ "request_replan") →
      ∃ ans w', runToolCalls07 shell tcs msgs w = (msgs ++ ans, w', none) ∧
        toolTags ans = tcs.map ToolCall.id ∧ ∀ a ∈ ans, isToolMsg a = true := by
  intro tcs
  induction tcs with
  | nil =>
    intro msgs w _
    exact ⟨[], w, by simp [runToolCalls07], rfl, by simp⟩
  | cons tc rest ih =>
    intro msgs w h
    have hne : tc.fname ≠ "request_replan" := h tc (List.mem_cons_self tc rest)
    have hrest : ∀ x ∈ rest, x.fname ≠ "request_replan" :=
      fun x hx => h x (List.mem_cons_of_mem tc hx)
    have step : ∀ (res : String) (w1 : World),
        runToolCalls07 shell (tc :: rest) msgs w
          = runToolCalls07 shell rest (msgs ++ [Msg.tool tc.id res]) w1 →
        ∃ ans w', runToolCalls07 shell (tc :: rest) msgs w = (msgs ++ ans, w', none) ∧
          toolTags ans = (tc :: rest).map ToolCall.id ∧ ∀ a ∈ ans, isToolMsg a = true := by
      intro res w1 hstep
      obtain ⟨ans, w', heq, htags, htool⟩ := ih (msgs ++ [Msg.tool tc.id res]) w1 hrest
      refine ⟨Msg.tool tc.id res :: ans, w', ?_, ?_, ?_⟩
      · rw [hstep, heq]
        simp
      · rw [toolTags_cons_tool, htags, List.map_cons]
      · intro a ha
        rcases List.mem_cons.mp ha with h1 | h1
        · rw [h1]; rfl
        · exact htool a h1
    by_cases hth : tc.fname = "think"
    · exact step "OK" w (runToolCalls07_cons_think shell tc rest msgs w hth)
    · rcases hh : toolHandlers07 shell tc.fname with _ | hd
      · exact step "OK" w (runToolCalls07_cons_unknown shell tc rest msgs w hth hne hh)
      · exact step (hd tc.args (hd tc.args w).2).1 (hd tc.args (hd tc.args w).2).2
          (runToolCalls07_cons_known shell tc rest msgs w hd hth hne hh)

/-- When the first `request_replan` of a turn is reached, the preceding
requests each got exactly one action-result, the `request_replan` itself gets
its action-result, and processing returns at once with the revision context —
the requests after it are never executed. -/
theorem runToolCalls07_with_replan (shell : Shell) :
    ∀ (pre : List ToolCall) (rr : ToolCall) (post : List ToolCall)
      (msgs : List Msg) (w : World),
      rr.fname = "request_replan" → (∀ tc ∈ pre, tc.fname ≠ "request_replan") →
      ∃ ans w', runToolCalls07 shell (pre ++ rr :: post) msgs w
          = (msgs ++ ans ++ [Msg.tool rr.id "REPLAN_REQUESTED"], w',
              some ⟨rr.args.reason, rr.args.completed_steps, rr.args.discoveries⟩) ∧
        toolTags ans = pre.map ToolCall.id ∧ ∀ a ∈ ans, isToolMsg a = true := by
  intro pre
  induction pre with
  | nil =>
    intro rr post msgs w hrr _
    refine ⟨[], w, ?_, rfl, by simp⟩
    rw [List.nil_append, runToolCalls07_cons_replan shell rr post msgs w hrr]
    simp
  | cons tc rest ih =>
    intro rr post msgs w hrr h
    have hne : tc.fname ≠ "request_replan" := h tc (List.mem_cons_self tc rest)
    have hrest : ∀ x ∈ rest, x.fname ≠ "request_replan" :=
      fun x hx => h x (List.mem_cons_of_mem tc hx)
    have step : ∀ (res : String) (w1 : World),
        runToolCalls07 shell (tc :: rest ++ rr :: post) msgs w
          = runToolCalls07 shell (rest ++ rr :: post) (msgs ++ [Msg.tool tc.id res]) w1 →
        ∃ ans w', runToolCalls07 shell ((tc :: rest) ++ rr :: post) msgs w
            = (msgs ++ ans ++ [Msg.tool rr.id "REPLAN_REQUESTED"], w',
                some ⟨rr.args.reason, rr.args.completed_steps, rr.args.discoveries⟩) ∧
          toolTags ans = (tc :: rest).map ToolCall.id ∧ ∀ a ∈ ans, isToolMsg a = true := by
      intro res w1 hstep
      obtain ⟨ans, w', heq, htags, htool⟩ := ih rr post (msgs ++ [Msg.tool tc.id res]) w1 hrr hrest
      refine ⟨Msg.tool tc.id res :: ans, w', ?_, ?_, ?_⟩
      · rw [hstep, heq]
        simp
      · rw [toolTags_cons_tool, htags, List.map_cons]
      · intro a ha
        rcases List.mem_cons.mp ha with h1 | h1
        · rw [h1]; rfl
        · exact htool a h1
    by_cases hth : tc.fname = "think"
    · exact step "OK" w (runToolCalls07_cons_think shell tc (rest ++ rr :: post) msgs w hth)
    · rcases hh : toolHandlers07 shell tc.fname with _ | hd
      · exact step "OK" w
          (runToolCalls07_cons_unknown shell tc (rest ++ rr :: post) msgs w hth hne hh)
      · exact step (hd tc.args (hd tc.args w).2).1 (hd tc.args (hd tc.args w).2).2
          (runToolCalls07_cons_known shell tc (rest ++ rr :: post) msgs w hd hth hne hh)

/-- C6: the first time a `request_replan` action is among a step's requests,
`executeWithReact` returns `replan_requested` — carrying the reason, completed
steps and discoveries from that request's arguments — immediately after that
request's action-result is appended: the transcript ends with the
`REPLAN_REQUESTED` action-result, the requests after it in the same turn are
not executed, and no further step (decision request) runs. -/
theorem C6_revision_request_short_circuits (shell : Shell)
    (service : List Msg → AssistantMsg) (fuel iter : Nat) (msgs : List Msg) (w : World)
    (pre post : List ToolCall) (rr : ToolCall)
    (hsplit : (service msgs).tool_calls = pre ++ rr :: post)
    (hrr : rr.fname = "request_replan")
    (hpre : ∀ tc ∈ pre, tc.fname ≠ "request_replan") :
    ∃ ans w', toolTags ans = pre.map ToolCall.id ∧ (∀ a ∈ ans, isToolMsg a = true) ∧
      executeWithReact shell service (fuel + 1) msgs w iter
        = ⟨msgs ++ [Msg.assistant (service msgs)] ++ ans ++ [Msg.tool rr.id "REPLAN_REQUESTED"],
            w', ⟨.replan_requested,
              some ⟨rr.args.reason, rr.args.completed_steps, rr.args.discoveries⟩⟩, iter + 1⟩ := by
  obtain ⟨ans, w', heq, htags, htool⟩ :=
    runToolCalls07_with_replan shell pre rr post (msgs ++ [Msg.assistant (service msgs)]) w hrr hpre
  refine ⟨ans, w', htags, htool, ?_⟩
  simp only [executeWithReact]
  rw [hsplit, if_neg (by simp), heq]

/-- Witness for `C6_revision_request_short_circuits`: `svcReplanMid` requests
`think`, then `request_replan`, then `run_bash`; the split hypothesis and the
name conditions hold definitionally. -/
theorem C6_revision_witness :
    (svcReplanMid [Msg.system "s", Msg.user "t"]).tool_calls
        = [⟨"r0", "think", { thought := "хм" }⟩] ++
          (⟨"r1", "request_replan",
            { reason := "новая информация", completed_steps := ["шаг 1"],
              discoveries := ["файлов больше"] }⟩ : ToolCall) ::
          [⟨"r2", "run_bash", { command := "ls" }⟩] ∧
    ∃ ans w', toolTags ans = [(⟨"r0", "think", { thought := "хм" }⟩ : ToolCall)].map ToolCall.id ∧
      (∀ a ∈ ans, isToolMsg a = true) ∧
      executeWithReact shellOk svcReplanMid (19 + 1) [Msg.system "s", Msg.user "t"] w0 0
        = ⟨[Msg.system "s", Msg.user "t"] ++
              [Msg.assistant (svcReplanMid [Msg.system "s", Msg.user "t"])] ++ ans ++
              [Msg.tool "r1" "REPLAN_REQUESTED"],
            w', ⟨.replan_requested,
              some ⟨"новая информация", ["шаг 1"], ["файлов больше"]⟩⟩, 0 + 1⟩ :=
  ⟨rfl, C6_revision_request_short_circuits shellOk svcReplanMid 19 0
    [Msg.system "s", Msg.user "t"] w0
    [⟨"r0", "think", { thought := "хм" }⟩] [⟨"r2", "run_bash", { command := "ls" }⟩]
    ⟨"r1", "request_replan",
      { reason := "новая информация", completed_steps := ["шаг 1"],
        discoveries := ["файлов больше"] }⟩ rfl rfl (by decide)⟩

/-- Under a service that always requests actions and never asks for a replan,
`executeWithReact` consumes its whole budget — one decision request per unit
of fuel — and falls out of the `while` loop with the same
`ExecutionResult` as a genuine final answer. -/
theorem executeWithReact_always_acting (shell : Shell) (service : List Msg → AssistantMsg)
    (hact : ∀ ms, (service ms).tool_calls ≠ [] ∧
      ∀ tc ∈ (service ms).tool_calls, tc.fname ≠ "request_replan") :
    ∀ (fuel : Nat) (msgs : List Msg) (w : World) (iter : Nat),
      (executeWithReact shell service fuel msgs w iter).result = ⟨.completed, none⟩ ∧
      (executeWithReact shell service fuel msgs w iter).iterations = iter + fuel := by
  intro fuel
  induction fuel with
  | zero => intro msgs w iter; exact ⟨rfl, rfl⟩
  | succ fuel ih =>
    intro msgs w iter
    obtain ⟨ans, w', heq, _, _⟩ := runToolCalls07_no_replan shell (service msgs).tool_calls
      (msgs ++ [Msg.assistant (service msgs)]) w ((hact msgs).2)
    have hne : ¬((service msgs).tool_calls.isEmpty = true) := by
      simpa [List.isEmpty_iff] using (hact msgs).1
    constructor
    · simp only [executeWithReact]
      rw [if_neg hne, heq]
      exact (ih _ _ _).1
    · simp only [executeWithReact]
      rw [if_neg hne, heq]
      rw [(ih _ _ _).2]
      omega

/-- Under a service that always requests actions, the plain 03/04 agent loop
consumes its whole budget and exits through the iteration limit. -/
theorem agentLoopCore_always_acting (resolve : ToolCall → World → String × World)
    (service : List Msg → AssistantMsg) (hact : ∀ ms, (service ms).tool_calls ≠ []) :
    ∀ (fuel : Nat) (msgs : List Msg) (w : World) (iter : Nat),
      (agentLoopCore resolve service fuel msgs w iter).exit = .limit ∧
      (agentLoopCore resolve service fuel msgs w iter).iterations = iter + fuel := by
  intro fuel
  induction fuel with
  | zero => intro msgs w iter; exact ⟨rfl, rfl⟩
  | succ fuel ih =>
    intro msgs w iter
    have hne : ¬((service msgs).tool_calls.isEmpty = true) := by
      simpa [List.isEmpty_iff] using hact msgs
    constructor
    · simp only [agentLoopCore]
      rw [if_neg hne]
      exact (ih _ _ _).1
    · simp only [agentLoopCore]
      rw [if_neg hne]
      rw [(ih _ _ _).2]
      omega

/-- C2, counterexample: the iteration-limit outcome of `executeWithReact` is
not observably distinguishable from a genuine final answer.  A service that
always requests actions makes the loop run its full 20 steps, yet the
`ExecutionResult` equals — as a value — the one produced by a service that
finalizes on its very first step. -/
theorem C2_limit_outcome_equals_final_outcome :
    (executeWithReactRun shellOk svcThink "s" "t" w0).iterations = 20 ∧
    (executeWithReactRun shellOk svcFinal "s" "t" w0).iterations = 1 ∧
    (executeWithReactRun shellOk svcThink "s" "t" w0).result
      = (executeWithReactRun shellOk svcFinal "s" "t" w0).result :=
  ⟨rfl, rfl, rfl⟩

/-- C2, amended: for every iteration ceiling `N`, a reasoning service that
always requests actions and never finalizes makes the loop terminate after
exactly `N` steps (never `N + 1`).  In `executeWithReact` the limit outcome
is the bare status `completed` with no replan context — identical to the
outcome of a genuine final answer, hence not observably distinguishable —
while in the basic 03 agent loop the limit exit is a distinct event
(`limit`, returning no final text, versus `final content`). -/
theorem C2_exactly_N_steps_at_limit (N : Nat) (shell : Shell) (clock : String)
    (service service2 : List Msg → AssistantMsg)
    (hact : ∀ ms, (service ms).tool_calls ≠ [] ∧
      ∀ tc ∈ (service ms).tool_calls, tc.fname ≠ "request_replan")
    (hact2 : ∀ ms, (service2 ms).tool_calls ≠ [])
    (msgs msgs2 : List Msg) (w w2 : World) :
    ((executeWithReact shell service N msgs w 0).iterations = N ∧
      (executeWithReact shell service N msgs w 0).result = ⟨.completed, none⟩) ∧
    ((agentLoopCore (resolve03 clock) service2 N msgs2 w2 0).iterations = N ∧
      (agentLoopCore (resolve03 clock) service2 N msgs2 w2 0).exit = .limit) := by
  obtain ⟨h1, h2⟩ := executeWithReact_always_acting shell service hact N msgs w 0
  obtain ⟨h3, h4⟩ := agentLoopCore_always_acting (resolve03 clock) service2 hact2 N msgs2 w2 0
  refine ⟨⟨?_, h1⟩, ⟨?_, h3⟩⟩
  · rw [h2]; omega
  · rw [h4]; omega

/-- Witness for `C2_exactly_N_steps_at_limit` at ceiling 20 with the
always-`think` service (07) and the always-`get_weather` service (03). -/
theorem C2_exactly_N_steps_witness :
    ((executeWithReact shellOk svcThink 20 [Msg.system "s", Msg.user "t"] w0 0).iterations = 20 ∧
      (executeWithReact shellOk svcThink 20 [Msg.system "s", Msg.user "t"] w0 0).result
        = ⟨.completed, none⟩) ∧
    ((agentLoopCore (resolve03 "12:00") svcWeatherAlways 20
        [Msg.system "s", Msg.user "t"] w0 0).iterations = 20 ∧
      (agentLoopCore (resolve03 "12:00") svcWeatherAlways 20
        [Msg.system "s", Msg.user "t"] w0 0).exit = .limit) :=
  C2_exactly_N_steps_at_limit 20 shellOk "12:00" svcThink svcWeatherAlways
    (fun ms => ⟨by simp [svcThink], by simp [svcThink]⟩)
    (fun ms => by simp [svcWeatherAlways])
    [Msg.system "s", Msg.user "t"] [Msg.system "s", Msg.user "t"] w0 w0

/-- Under an execution phase that requests a revision on every attempt, the
replan loop of `adaptiveAgent` performs one replanning cycle per pass until
the counter exceeds the maximum, then aborts. -/
theorem adaptiveLoop_always_replan (exec : Nat → ExecutionResult)
    (hex : ∀ k, (exec k).status = .replan_requested) (M : Nat) :
    ∀ (fuel rc replans : Nat), rc ≤ M → fuel = M + 1 - rc →
      adaptiveLoop exec M fuel rc replans = (.aborted, replans + (M - rc)) := by
  intro fuel
  induction fuel with
  | zero => intro rc replans hrc hfuel; omega
  | succ fuel ih =>
    intro rc replans hrc hfuel
    simp only [adaptiveLoop]
    rw [if_pos hrc, hex rc]
    by_cases hlast : rc + 1 > M
    · rw [if_pos hlast]
      have h0 : M - rc = 0 := by omega
      rw [h0]
      rfl
    · rw [if_neg hlast]
      rw [ih (rc + 1) (replans + 1) (by omega) (by omega)]
      have : replans + 1 + (M - (rc + 1)) = replans + (M - rc) := by omega
      rw [this]

/-- C3: for every configured replan maximum `M` and every execution phase
that always ends in a revision request, `adaptiveAgent` performs exactly `M`
replanning cycles (calls to `createPlan` with revision context) and then
returns through its "Достигнут лимит репланов" branch (`aborted`) — it
neither crashes nor replans an `M + 1`-th time. -/
theorem C3_replan_budget_exhausted (M : Nat) (exec : Nat → ExecutionResult)
    (hex : ∀ k, (exec k).status = .replan_requested) :
    adaptiveAgentRun exec M = (.aborted, M) := by
  have h := adaptiveLoop_always_replan exec hex M (M + 1) 0 0 (Nat.zero_le M) (by omega)
  simpa [adaptiveAgentRun] using h

/-- Witness for `C3_replan_budget_exhausted` at the source's
`MAX_REPLANS = 3` with the always-revising execution oracle. -/
theorem C3_replan_budget_witness :
    (∀ k, (execAlwaysReplan k).status = .replan_requested) ∧
    adaptiveAgentRun execAlwaysReplan MAX_REPLANS = (.aborted, 3) :=
  ⟨fun _ => rfl, C3_replan_budget_exhausted MAX_REPLANS execAlwaysReplan (fun _ => rfl)⟩

/-- Action-result tags distribute over transcript concatenation. -/
theorem toolTags_append (a b : List Msg) : toolTags (a ++ b) = toolTags a ++ toolTags b :=
  List.filterMap_append a b _

/-- The invariant checker is compositional: checking a concatenation threads
the pending requests through the first part. -/
theorem chkRun_append (t : List Msg) :
    ∀ (p : List String) (u : List Msg),
      chkRun p (t ++ u) = (chkRun p t).bind (fun q => chkRun q u) := by
  induction t with
  | nil => intro p u; rfl
  | cons m t ih =>
    intro p u
    cases m with
    | tool id c =>
      cases p with
      | nil => rfl
      | cons q qs =>
        by_cases hid : id = q
        · simp only [List.cons_append, chkRun, if_pos hid]
          exact ih qs u
        · simp only [List.cons_append, chkRun, if_neg hid]
          rfl
    | assistant m =>
      by_cases hp : p.isEmpty
      · simp only [List.cons_append, chkRun, if_pos hp]
        exact ih _ u
      · simp only [List.cons_append, chkRun, if_neg hp]
        rfl
    | system c =>
      by_cases hp : p.isEmpty
      · simp only [List.cons_append, chkRun, if_pos hp]
        exact ih _ u
      · simp only [List.cons_append, chkRun, if_neg hp]
        rfl
    | user c =>
      by_cases hp : p.isEmpty
      · simp only [List.cons_append, chkRun, if_pos hp]
        exact ih _ u
      · simp only [List.cons_append, chkRun, if_neg hp]
        rfl

/-- One turn's tool processing in the 03/04 loops appends exactly one
action-result per request, tagged with the request ids in order, and those
answers discharge exactly the turn's pending requests. -/
theorem runCallsSimple_spec (resolve : ToolCall → World → String × World) :
    ∀ (tcs : List ToolCall) (msgs : List Msg) (w : World),
      ∃ ans w', runCallsSimple resolve tcs msgs w = (msgs ++ ans, w') ∧
        toolTags ans = tcs.map ToolCall.id ∧
        chkRun (tcs.map ToolCall.id) ans = some [] := by
  intro tcs
  induction tcs with
  | nil =>
    intro msgs w
    exact ⟨[], w, by simp [runCallsSimple], rfl, rfl⟩
  | cons tc rest ih =>
    intro msgs w
    obtain ⟨ans, w', heq, htags, hchk⟩ :=
      ih (msgs ++ [Msg.tool tc.id (resolve tc w).1]) (resolve tc w).2
    refine ⟨Msg.tool tc.id (resolve tc w).1 :: ans, w', ?_, ?_, ?_⟩
    · simp only [runCallsSimple]
      rw [heq]
      simp
    · rw [toolTags_cons_tool, htags, List.map_cons]
    · simp only [List.map_cons, chkRun, if_pos rfl]
      exact hchk

/-- The 03/04 loop preserves the transcript invariant: if the transcript so
far is well-formed with distinct tags, so is the loop's final transcript,
provided the service supplies fresh request ids. -/
theorem agentLoopCore_invariant (resolve : ToolCall → World → String × World)
    (service : List Msg → AssistantMsg) (hfresh : freshIds service) :
    ∀ (fuel : Nat) (msgs : List Msg) (w : World) (iter : Nat),
      chkRun [] msgs = some [] → (toolTags msgs).Nodup →
      chkRun [] (agentLoopCore resolve service fuel msgs w iter).messages = some [] ∧
      (toolTags (agentLoopCore resolve service fuel msgs w iter).messages).Nodup := by
  intro fuel
  induction fuel with
  | zero => intro msgs w iter h1 h2; exact ⟨h1, h2⟩
  | succ fuel ih =>
    intro msgs w iter h1 h2
    by_cases hte : ((service msgs).tool_calls.isEmpty = true)
    · have hids : (service msgs).tool_calls.map ToolCall.id = [] := by
        rw [List.isEmpty_iff.mp hte]; rfl
      simp only [agentLoopCore]
      rw [if_pos hte]
      constructor
      · show chkRun [] (msgs ++ [Msg.assistant (service msgs)]) = some []
        rw [chkRun_append, h1]
        show chkRun [] [Msg.assistant (service msgs)] = some []
        simp [chkRun, hids]
      · show (toolTags (msgs ++ [Msg.assistant (service msgs)])).Nodup
        rw [toolTags_append]
        simpa [toolTags] using h2
    · obtain ⟨ans, w', heq, htags, hchk⟩ := runCallsSimple_spec resolve
        (service msgs).tool_calls (msgs ++ [Msg.assistant (service msgs)]) w
      have hinv1 : chkRun [] (msgs ++ [Msg.assistant (service msgs)] ++ ans) = some [] := by
        have hassoc : msgs ++ [Msg.assistant (service msgs)] ++ ans
            = msgs ++ (Msg.assistant (service msgs) :: ans) := by simp
        rw [hassoc, chkRun_append, h1]
        show chkRun [] (Msg.assistant (service msgs) :: ans) = some []
        have hstep : chkRun [] (Msg.assistant (service msgs) :: ans)
            = chkRun ((service msgs).tool_calls.map ToolCall.id) ans := by
          simp [chkRun]
        rw [hstep]
        exact hchk
      have hinv2 : (toolTags (msgs ++ [Msg.assistant (service msgs)] ++ ans)).Nodup := by
        have ht : toolTags (msgs ++ [Msg.assistant (service msgs)] ++ ans)
            = toolTags msgs ++ toolTags ans := by
          rw [toolTags_append, toolTags_append]
          simp [toolTags]
        rw [ht, htags]
        exact List.Nodup.append h2 (hfresh msgs).1
          (List.disjoint_right.mpr fun {a} ha => (hfresh msgs).2 a ha)
      simp only [agentLoopCore]
      rw [if_neg hte, heq]
      exact ih _ _ _ hinv1 hinv2

/-- The service `svcWeather` always supplies fresh request ids. -/
theorem svcWeather_fresh : freshIds svcWeather := by
  intro ms
  by_cases h : (toolTags ms).isEmpty
  · constructor
    · simp [svcWeather, h]
    · intro i hi
      have hnil : toolTags ms = [] := List.isEmpty_iff.mp h
      rw [hnil]
      simp
  · constructor <;> simp [svcWeather, h]

/-- C7: in every transcript the 04 and 03 agent loops produce (from a fresh
reasoning service), the checker `chkRun` accepts: each action-result turn
answers exactly the next pending request of the immediately preceding
assistant turn, every request is answered before the next decision request,
and — by the accompanying `Nodup` — no two action-result turns share a tag,
so each tag matches exactly one request. -/
theorem C7_transcript_tags_consistent (shell : Shell) (clock : String)
    (service : List Msg → AssistantMsg) (hfresh : freshIds service)
    (task : String) (w : World) :
    (chkRun [] (agentLoop04 shell service task w).messages = some [] ∧
      (toolTags (agentLoop04 shell service task w).messages).Nodup) ∧
    (chkRun [] (agentLoop03 clock service task w).messages = some [] ∧
      (toolTags (agentLoop03 clock service task w).messages).Nodup) := by
  constructor
  · exact agentLoopCore_invariant (resolve04 shell) service hfresh 10
      [Msg.system sys04, Msg.user task] w 0 rfl (by simp [toolTags])
  · exact agentLoopCore_invariant (resolve03 clock) service hfresh 10
      _ w 0 rfl (by simp [toolTags])

/-- Witness for `C7_transcript_tags_consistent` with the two-request
`svcWeather` service. -/
theorem C7_transcript_tags_witness :
    freshIds svcWeather ∧
    ((chkRun [] (agentLoop04 shellOk svcWeather "задача" w0).messages = some [] ∧
      (toolTags (agentLoop04 shellOk svcWeather "задача" w0).messages).Nodup) ∧
     (chkRun [] (agentLoop03 "12:00" svcWeather "задача" w0).messages = some [] ∧
      (toolTags (agentLoop03 "12:00" svcWeather "задача" w0).messages).Nodup)) :=
  ⟨svcWeather_fresh,
    C7_transcript_tags_consistent shellOk "12:00" svcWeather svcWeather_fresh "задача" w0⟩

/-- One-step equation of the 03/04 loop at explicit successor fuel (avoids
unfolding through numeral fuel). -/
theorem agentLoopCore_succ (resolve : ToolCall → World → String × World)
    (service : List Msg → AssistantMsg) (fuel : Nat) (msgs : List Msg) (w : World) (iter : Nat) :
    agentLoopCore resolve service (fuel + 1) msgs w iter
      = if (service msgs).tool_calls.isEmpty
        then ⟨msgs ++ [Msg.assistant (service msgs)], w, .final (service msgs).content, iter + 1⟩
        else
          (fun r => agentLoopCore resolve service fuel r.1 r.2 (iter + 1))
            (runCallsSimple resolve (service msgs).tool_calls
              (msgs ++ [Msg.assistant (service msgs)]) w) := rfl

/-- The 03/04 loop only appends to its transcript. -/
theorem agentLoopCore_messages_extension (resolve : ToolCall → World → String × World)
    (service : List Msg → AssistantMsg) :
    ∀ (fuel : Nat) (msgs : List Msg) (w : World) (iter : Nat),
      ∃ ext, (agentLoopCore resolve service fuel msgs w iter).messages = msgs ++ ext := by
  intro fuel
  induction fuel with
  | zero => intro msgs w iter; exact ⟨[], by simp [agentLoopCore]⟩
  | succ fuel ih =>
    intro msgs w iter
    by_cases hte : ((service msgs).tool_calls.isEmpty = true)
    · refine ⟨[Msg.assistant (service msgs)], ?_⟩
      simp only [agentLoopCore]
      rw [if_pos hte]
    · obtain ⟨ans, w', heq, _, _⟩ := runCallsSimple_spec resolve
        (service msgs).tool_calls (msgs ++ [Msg.assistant (service msgs)]) w
      obtain ⟨ext, hext⟩ := ih (msgs ++ [Msg.assistant (service msgs)] ++ ans) w' (iter + 1)
      refine ⟨[Msg.assistant (service msgs)] ++ ans ++ ext, ?_⟩
      simp only [agentLoopCore]
      rw [if_neg hte, heq]
      show (agentLoopCore resolve service fuel
        (msgs ++ [Msg.assistant (service msgs)] ++ ans) w' (iter + 1)).messages = _
      rw [hext]
      simp

/-- The 03/04 loop's iteration counter never decreases. -/
theorem agentLoopCore_iterations_ge (resolve : ToolCall → World → String × World)
    (service : List Msg → AssistantMsg) :
    ∀ (fuel : Nat) (msgs : List Msg) (w : World) (iter : Nat),
      iter ≤ (agentLoopCore resolve service fuel msgs w iter).iterations := by
  intro fuel
  induction fuel with
  | zero => intro msgs w iter; exact Nat.le_refl iter
  | succ fuel ih =>
    intro msgs w iter
    by_cases hte : ((service msgs).tool_calls.isEmpty = true)
    · simp only [agentLoopCore]
      rw [if_pos hte]
      exact Nat.le_succ iter
    · simp only [agentLoopCore]
      rw [if_neg hte]
      exact Nat.le_trans (Nat.le_succ iter) (ih _ _ _)

/-- With fuel left, the 03/04 loop issues at least one more decision request. -/
theorem agentLoopCore_iterations_succ (resolve : ToolCall → World → String × World)
    (service : List Msg → AssistantMsg) :
    ∀ (fuel : Nat) (msgs : List Msg) (w : World) (iter : Nat),
      iter + 1 ≤ (agentLoopCore resolve service (fuel + 1) msgs w iter).iterations := by
  intro fuel msgs w iter
  by_cases hte : ((service msgs).tool_calls.isEmpty = true)
  · simp only [agentLoopCore]
    rw [if_pos hte]
  · simp only [agentLoopCore]
    rw [if_neg hte]
    exact agentLoopCore_iterations_ge resolve service fuel _ _ _

/-- If the first decision of `agentLoop` (04) requests a single action whose
resolution yields `res`, then `res` is appended as that request's
action-result and the loop goes on to issue a second decision request. -/
theorem agentLoop04_first_step (shell : Shell) (service : List Msg → AssistantMsg)
    (task res : String) (w w1 : World) (tc : ToolCall)
    (hsvc : service [Msg.system sys04, Msg.user task] = ⟨none, [tc]⟩)
    (hres : resolve04 shell tc w = (res, w1)) :
    Msg.tool tc.id res ∈ (agentLoop04 shell service task w).messages ∧
    2 ≤ (agentLoop04 shell service task w).iterations := by
  have hstep : agentLoop04 shell service task w
      = agentLoopCore (resolve04 shell) service 9
          ([Msg.system sys04, Msg.user task] ++
            [Msg.assistant ⟨none, [tc]⟩, Msg.tool tc.id res]) w1 1 := by
    show agentLoopCore (resolve04 shell) service 10 [Msg.system sys04, Msg.user task] w 0 = _
    rw [show (10 : Nat) = 9 + 1 from rfl, agentLoopCore_succ, hsvc]
    rw [if_neg (by simp)]
    simp only [runCallsSimple]
    rw [hres]
    simp
  constructor
  · obtain ⟨ext, hext⟩ := agentLoopCore_messages_extension (resolve04 shell) service 9
      ([Msg.system sys04, Msg.user task] ++
        [Msg.assistant ⟨none, [tc]⟩, Msg.tool tc.id res]) w1 1
    rw [hstep, hext]
    simp
  · rw [hstep]
    exact Nat.le_trans (by omega)
      (agentLoopCore_iterations_succ (resolve04 shell) service 8 _ _ 1)

/-- C9: a handler whose underlying operation fails returns an error text
starting with `Ошибка:` instead of raising — shown for `read_file` on a
missing path and for `run_bash` on a failing command — that text is appended
as the request's action-result, and the loop proceeds to a next decision
request (at least two decision requests are issued). -/
theorem C9_failing_operation_becomes_error_text (shell : Shell)
    (service : List Msg → AssistantMsg) (w : World)
    (task path id e : String) (a : Args)
    (hfs : w.fs.lookup path = none)
    (hsvc : service [Msg.system sys04, Msg.user task]
        = ⟨none, [⟨id, "read_file", { path := path }⟩]⟩)
    (hsh : shell a.command = .error e) :
    resolve04 shell ⟨id, "read_file", { path := path }⟩ w
        = ("Ошибка: " ++ enoentMsg path, w) ∧
    resolve04 shell ⟨id, "run_bash", a⟩ w
        = ("Ошибка: " ++ e, ⟨w.fs, w.bashLog ++ [a.command]⟩) ∧
    Msg.tool id ("Ошибка: " ++ enoentMsg path) ∈ (agentLoop04 shell service task w).messages ∧
    2 ≤ (agentLoop04 shell service task w).iterations := by
  have h1 : resolve04 shell ⟨id, "read_file", { path := path }⟩ w
      = ("Ошибка: " ++ enoentMsg path, w) := by
    have hr : resolve04 shell ⟨id, "read_file", { path := path }⟩ w
        = (match w.fs.lookup path with
           | some c => (c, w)
           | none => ("Ошибка: " ++ enoentMsg path, w)) := rfl
    rw [hr, hfs]
  have h2 : resolve04 shell ⟨id, "run_bash", a⟩ w
      = ("Ошибка: " ++ e, ⟨w.fs, w.bashLog ++ [a.command]⟩) := by
    have hr : resolve04 shell ⟨id, "run_bash", a⟩ w
        = (match shell a.command with
           | .ok out => (out.trim, ⟨w.fs, w.bashLog ++ [a.command]⟩)
           | .error e2 => ("Ошибка: " ++ e2, ⟨w.fs, w.bashLog ++ [a.command]⟩)) := rfl
    rw [hr, hsh]
  obtain ⟨hm, hi⟩ := agentLoop04_first_step shell service task ("Ошибка: " ++ enoentMsg path)
    w w ⟨id, "read_file", { path := path }⟩ hsvc h1
  exact ⟨h1, h2, hm, hi⟩

/-- Witness for `C9_failing_operation_becomes_error_text`: reading
`/nope.txt` from an empty filesystem, with a shell on which every command
fails. -/
theorem C9_failing_operation_witness :
    w0.fs.lookup "/nope.txt" = none ∧
    svcRead [Msg.system sys04, Msg.user "задача"]
        = ⟨none, [⟨"c1", "read_file", { path := "/nope.txt" }⟩]⟩ ∧
    shellFail "ls" = .error "команда завершилась с ошибкой" ∧
    (resolve04 shellFail ⟨"c1", "read_file", { path := "/nope.txt" }⟩ w0
        = ("Ошибка: " ++ enoentMsg "/nope.txt", w0) ∧
      resolve04 shellFail ⟨"c1", "run_bash", { command := "ls" }⟩ w0
        = ("Ошибка: " ++ "команда завершилась с ошибкой", ⟨w0.fs, w0.bashLog ++ ["ls"]⟩) ∧
      Msg.tool "c1" ("Ошибка: " ++ enoentMsg "/nope.txt")
          ∈ (agentLoop04 shellFail svcRead "задача" w0).messages ∧
      2 ≤ (agentLoop04 shellFail svcRead "задача" w0).iterations) :=
  ⟨rfl, rfl, rfl,
    C9_failing_operation_becomes_error_text shellFail svcRead w0 "задача" "/nope.txt" "c1"
      "команда завершилась с ошибкой" { command := "ls" } rfl rfl rfl⟩

/-- C8, counterexample: in `executeWithReact` the action-result appended for
an action name not in the registry is the constant `"OK"` (line 297's
`?? "OK"` fallback), not an error-describing string — the error text of
line 290 is only printed.  The loop does continue and the run does not
abort. -/
theorem C8_unknown_action_result_is_OK :
    (executeWithReactRun shellOk svcUnknown "s" "t" w0).messages
        = [Msg.system "s", Msg.user "t",
           Msg.assistant ⟨none, [⟨"u1", "frobnicate", {}⟩]⟩,
           Msg.tool "u1" "OK",
           Msg.assistant ⟨some "done", []⟩] ∧
    (executeWithReactRun shellOk svcUnknown "s" "t" w0).result = ⟨.completed, none⟩ :=
  ⟨rfl, rfl⟩

/-- C8, amended: an action request whose name is not in the registry never
aborts the run — a textual action-result is appended and the loop continues.
In `agentLoop` (04) the appended text is the error-describing
`Tool "…" не найден` and a next decision request is issued; in
`executeWithReact` (07) the appended action-result is the constant `"OK"`
(the error-describing text is only logged) and processing likewise
continues. -/
theorem C8_unknown_action_never_aborts (shell : Shell) (service : List Msg → AssistantMsg)
    (w : World) (task name id : String) (a : Args) (tc : ToolCall) (rest : List ToolCall)
    (msgs : List Msg)
    (hunk04 : toolHandlers04 shell name = none)
    (hsvc : service [Msg.system sys04, Msg.user task] = ⟨none, [⟨id, name, a⟩]⟩)
    (hunk07 : toolHandlers07 shell tc.fname = none)
    (h1 : tc.fname ≠ "think") (h2 : tc.fname ≠ "request_replan") :
    resolve04 shell ⟨id, name, a⟩ w = ("Tool \"" ++ name ++ "\" не найден", w) ∧
    (Msg.tool id ("Tool \"" ++ name ++ "\" не найден")
        ∈ (agentLoop04 shell service task w).messages ∧
      2 ≤ (agentLoop04 shell service task w).iterations) ∧
    runToolCalls07 shell (tc :: rest) msgs w
      = runToolCalls07 shell rest (msgs ++ [Msg.tool tc.id "OK"]) w := by
  have hres : resolve04 shell ⟨id, name, a⟩ w = ("Tool \"" ++ name ++ "\" не найден", w) := by
    have hr : resolve04 shell ⟨id, name, a⟩ w
        = (match toolHandlers04 shell name with
           | some h => h a w
           | none => ("Tool \"" ++ name ++ "\" не найден", w)) := rfl
    rw [hr, hunk04]
  exact ⟨hres,
    agentLoop04_first_step shell service task _ w w ⟨id, name, a⟩ hsvc hres,
    runToolCalls07_cons_unknown shell tc rest msgs w h1 h2 hunk07⟩

/-- Witness for `C8_unknown_action_never_aborts` at the unregistered name
`frobnicate`. -/
theorem C8_unknown_action_witness :
    toolHandlers04 shellOk "frobnicate" = none ∧
    svcUnknown [Msg.system sys04, Msg.user "задача"] = ⟨none, [⟨"u1", "frobnicate", {}⟩]⟩ ∧
    (resolve04 shellOk ⟨"u1", "frobnicate", {}⟩ w0
        = ("Tool \"frobnicate\" не найден", w0) ∧
      (Msg.tool "u1" ("Tool \"frobnicate\" не найден")
          ∈ (agentLoop04 shellOk svcUnknown "задача" w0).messages ∧
        2 ≤ (agentLoop04 shellOk svcUnknown "задача" w0).iterations) ∧
      runToolCalls07 shellOk ([⟨"x9", "frobnicate", {}⟩] : List ToolCall) [] w0
        = runToolCalls07 shellOk [] ([] ++ [Msg.tool "x9" "OK"]) w0) :=
  ⟨rfl, rfl,
    C8_unknown_action_never_aborts shellOk svcUnknown w0 "задача" "frobnicate" "u1" {}
      ⟨"x9", "frobnicate", {}⟩ [] [] rfl rfl rfl (by decide) (by decide)⟩

/-- Under a service that always answers in plain text and a user who always
types a non-empty follow-up, the interactive loop consumes its whole
iteration budget — the follow-ups keep counting against the same ceiling —
and exits through the limit. -/
theorem interactiveAgentLoop_text_limit
    (handlers : String → Option (Args → World → String × World))
    (service : List Msg → AssistantMsg) (userFollow : List Msg → String)
    (htext : ∀ ms, (service ms).tool_calls = []) (hfollow : ∀ ms, userFollow ms ≠ "") :
    ∀ (fuel : Nat) (msgs : List Msg) (w : World) (iter : Nat),
      (interactiveAgentLoop handlers service userFollow fuel msgs w iter).exit = .limit ∧
      (interactiveAgentLoop handlers service userFollow fuel msgs w iter).iterations
        = iter + fuel := by
  intro fuel
  induction fuel with
  | zero => intro msgs w iter; exact ⟨rfl, rfl⟩
  | succ fuel ih =>
    intro msgs w iter
    have hte : ((service msgs).tool_calls.isEmpty = true) := by simp [htext msgs]
    simp only [interactiveAgentLoop]
    rw [if_pos hte, if_neg (hfollow _)]
    constructor
    · exact (ih _ _ _).1
    · rw [(ih _ _ _).2]
      omega

/-- C10: in `interactiveAgent` an assistant turn with no action requests does
not by itself end the run.  The run finishes exactly when the user's
follow-up is empty; a non-empty follow-up is appended as a new `user` turn
and iteration continues — the iteration already counted — and under
always-text turns with always-non-empty follow-ups the run performs exactly
its 30-iteration budget. -/
theorem C10_interactive_follow_up
    (handlers : String → Option (Args → World → String × World))
    (service : List Msg → AssistantMsg) (userFollow : List Msg → String)
    (sysP task : String) (w : World) :
    (∀ (msgs : List Msg) (w' : World) (iter fuel : Nat),
      (service msgs).tool_calls = [] →
      ((userFollow (msgs ++ [Msg.assistant (service msgs)]) = "" →
        interactiveAgentLoop handlers service userFollow (fuel + 1) msgs w' iter
          = ⟨msgs ++ [Msg.assistant (service msgs)], w', .finished, iter + 1⟩) ∧
       (userFollow (msgs ++ [Msg.assistant (service msgs)]) ≠ "" →
        interactiveAgentLoop handlers service userFollow (fuel + 1) msgs w' iter
          = interactiveAgentLoop handlers service userFollow fuel
              (msgs ++ [Msg.assistant (service msgs),
                Msg.user (userFollow (msgs ++ [Msg.assistant (service msgs)]))]) w'
              (iter + 1)))) ∧
    ((∀ ms, (service ms).tool_calls = []) → (∀ ms, userFollow ms ≠ "") →
      (interactiveAgent handlers service userFollow sysP task w).exit = .limit ∧
      (interactiveAgent handlers service userFollow sysP task w).iterations = 30) := by
  constructor
  · intro msgs w' iter fuel hnc
    have hte : ((service msgs).tool_calls.isEmpty = true) := by simp [hnc]
    constructor
    · intro hemp
      simp only [interactiveAgentLoop]
      rw [if_pos hte, if_pos hemp]
    · intro hne
      simp only [interactiveAgentLoop]
      rw [if_pos hte, if_neg hne]
      simp
  · intro htext hfollow
    have h := interactiveAgentLoop_text_limit handlers service userFollow htext hfollow 30
      [Msg.system sysP, Msg.user task] w 0
    have h2 := h.2
    rw [Nat.zero_add] at h2
    exact ⟨h.1, h2⟩

/-- Witness for `C10_interactive_follow_up` with an always-text service, an
empty handler table, the empty follow-up (finishing) and the non-empty one
(continuing through the full budget). -/
theorem C10_interactive_follow_up_witness :
    (svcText [Msg.system "s", Msg.user "t"]).tool_calls = [] ∧
    interactiveAgentLoop handlersNone svcText followNone (29 + 1)
        [Msg.system "s", Msg.user "t"] w0 0
      = ⟨[Msg.system "s", Msg.user "t"] ++
          [Msg.assistant (svcText [Msg.system "s", Msg.user "t"])], w0, .finished, 0 + 1⟩ ∧
    interactiveAgentLoop handlersNone svcText followYes (29 + 1)
        [Msg.system "s", Msg.user "t"] w0 0
      = interactiveAgentLoop handlersNone svcText followYes 29
          ([Msg.system "s", Msg.user "t"] ++
            [Msg.assistant (svcText [Msg.system "s", Msg.user "t"]),
              Msg.user (followYes ([Msg.system "s", Msg.user "t"] ++
                [Msg.assistant (svcText [Msg.system "s", Msg.user "t"])]))]) w0 (0 + 1) ∧
    (interactiveAgent handlersNone svcText followYes "s" "t" w0).exit = .limit ∧
    (interactiveAgent handlersNone svcText followYes "s" "t" w0).iterations = 30 :=
  ⟨rfl,
    ((C10_interactive_follow_up handlersNone svcText followNone "s" "t" w0).1
      [Msg.system "s", Msg.user "t"] w0 0 29 rfl).1 rfl,
    ((C10_interactive_follow_up handlersNone svcText followYes "s" "t" w0).1
      [Msg.system "s", Msg.user "t"] w0 0 29 rfl).2 (by decide),
    ((C10_interactive_follow_up handlersNone svcText followYes "s" "t" w0).2
      (fun _ => rfl) (fun _ hcontra => absurd hcontra (show ¬("продолжай" = "") by decide))).1,
    ((C10_interactive_follow_up handlersNone svcText followYes "s" "t" w0).2
      (fun _ => rfl) (fun _ hcontra => absurd hcontra (show ¬("продолжай" = "") by decide))).2⟩

end SimpleAgent
